import Mathlib

/-!
Shallow embedding of the pixel-art pipeline implemented in
src/app/components/ImageGenerator.tsx, together with proofs of the spec
claims about it.  JavaScript numbers are modelled as exact rationals, and
the Uint8ClampedArray image data is modelled per pixel as RGBA quadruples
of natural numbers.
-/

/-- One RGBA pixel of a Uint8ClampedArray raster. -/
structure RGBA where
  r : Nat
  g : Nat
  b : Nat
  a : Nat
  deriving DecidableEq

/-- A width times height raster; pix x y is the pixel whose flat index is
(y * width + x) * 4 in the underlying array.  The function is total; only
values at x < width, y < height correspond to array cells. -/
structure ImageData where
  width : Nat
  height : Nat
  pix : Nat → Nat → RGBA

/-- The bounding rectangles returned by getOpaqueBounds (x, y, w, h). -/
structure Rect where
  x : Nat
  y : Nat
  w : Nat
  h : Nat
  deriving DecidableEq

/-- PaletteName of ImageGenerator.tsx. -/
inductive PaletteName where
  | gb | nes | ega | c64 | pico8
  deriving DecidableEq

/-- The PALETTES constant of ImageGenerator.tsx (lines 231-263). -/
def PALETTES : PaletteName → List (Nat × Nat × Nat)
  | .gb => [(15, 56, 15), (48, 98, 48), (139, 172, 15), (155, 188, 15)]
  | .nes =>
    [(124, 124, 124), (0, 0, 252), (0, 0, 188), (68, 40, 188),
     (148, 0, 132), (168, 0, 32), (168, 16, 0), (136, 20, 0),
     (80, 48, 0), (0, 120, 0), (0, 104, 0), (0, 88, 0),
     (0, 64, 88), (0, 0, 0), (188, 188, 188), (248, 248, 248)]
  | .ega =>
    [(0, 0, 0), (0, 0, 170), (0, 170, 0), (0, 170, 170),
     (170, 0, 0), (170, 0, 170), (170, 85, 0), (170, 170, 170),
     (85, 85, 85), (85, 85, 255), (85, 255, 85), (85, 255, 255),
     (255, 85, 85), (255, 85, 255), (255, 255, 85), (255, 255, 255)]
  | .c64 =>
    [(0, 0, 0), (255, 255, 255), (136, 0, 0), (170, 255, 238),
     (204, 68, 204), (0, 204, 85), (0, 0, 170), (238, 238, 119),
     (221, 136, 85), (102, 68, 0), (255, 119, 119), (51, 51, 51),
     (119, 119, 119), (170, 255, 102), (0, 136, 255), (187, 187, 187)]
  | .pico8 =>
    [(0, 0, 0), (29, 43, 83), (126, 37, 83), (0, 135, 81),
     (171, 82, 54), (95, 87, 79), (194, 195, 199), (255, 241, 232),
     (255, 0, 77), (255, 163, 0), (255, 236, 39), (0, 228, 54),
     (41, 173, 255), (131, 118, 156), (255, 119, 168), (255, 204, 170)]

/-- The BAYER_4X4 constant (lines 265-270). -/
def BAYER_4X4 : List (List Nat) :=
  [[0, 8, 2, 10], [12, 4, 14, 6], [3, 11, 1, 9], [15, 7, 13, 5]]

/-- BAYER_4X4[y & 3][x & 3]; bitwise and with 3 equals mod 4. -/
def bayerAt (y x : Nat) : Nat := (BAYER_4X4.getD (y % 4) []).getD (x % 4) 0

/-- clamp255 (lines 331-333). -/
def clamp255 (v : ℚ) : ℚ := if v < 0 then 0 else if 255 < v then 255 else v

/-- The squared perceptually weighted distance of findNearestInPalette
(line 344): d = 0.3 dr^2 + 0.59 dg^2 + 0.11 db^2. -/
def wdist (r g b : ℚ) (p : Nat × Nat × Nat) : ℚ :=
  let dr := r - (p.1 : ℚ)
  let dg := g - (p.2.1 : ℚ)
  let db := b - (p.2.2 : ℚ)
  3 / 10 * (dr * dr) + 59 / 100 * (dg * dg) + 11 / 100 * (db * db)

/-- The scan loop of findNearestInPalette: running best distance and best
index, a strictly smaller distance replaces the incumbent, so ties keep the
first-lowest index.  The Nat argument i is the index of the head of the
remaining list inside the full palette. -/
def nearAux (r g b : ℚ) : List (Nat × Nat × Nat) → Nat → ℚ → Nat → Nat
  | [], _, _, bestIdx => bestIdx
  | p :: rest, i, bestD, bestIdx =>
    if wdist r g b p < bestD then nearAux r g b rest (i + 1) (wdist r g b p) i
    else nearAux r g b rest (i + 1) bestD bestIdx

/-- findNearestInPalette (lines 335-351).  The source initialises bestD to
positive infinity, so the first iteration always installs entry 0; we model
this by starting the loop at index 1 with entry 0 as the incumbent.  On an
empty palette the source would index undefined; the (0,0,0) default is
never used by the claims, which assume a nonempty palette. -/
def findNearestInPalette (r g b : ℚ) (palette : List (Nat × Nat × Nat)) :
    Nat × Nat × Nat :=
  match palette with
  | [] => (0, 0, 0)
  | p :: rest => (p :: rest).getD (nearAux r g b rest 1 (wdist r g b p) 0) (0, 0, 0)

/-- The per-pixel body of the quantize loop (lines 296-326), with the
dither amplitude already computed. -/
def quantizePixel (palette : List (Nat × Nat × Nat)) (ditherAmp : ℚ)
    (x y : Nat) (px : RGBA) : RGBA :=
  if px.a < 5 then ⟨0, 0, 0, 0⟩
  else
    let r0 : ℚ := px.r
    let g0 : ℚ := px.g
    let b0 : ℚ := px.b
    let rgb :=
      if 0 < ditherAmp then
        let t : ℚ := (bayerAt y x : ℚ) / 15
        let offset := (t - 1 / 2) * 2 * ditherAmp
        let yLum := 2126 / 10000 * r0 + 7152 / 10000 * g0 + 722 / 10000 * b0
        (clamp255 (r0 + offset * (r0 / (yLum + 1))),
         clamp255 (g0 + offset * (g0 / (yLum + 1))),
         clamp255 (b0 + offset * (b0 / (yLum + 1))))
      else (r0, g0, b0)
    let q := findNearestInPalette rgb.1 rgb.2.1 rgb.2.2 palette
    ⟨q.1, q.2.1, q.2.2, 255⟩

/-- quantizeImageToPalette (lines 291-329).  ditherAmp = clamp to [0,1]
times 32. -/
def quantizeImageToPalette (src : ImageData) (palette : List (Nat × Nat × Nat))
    (ditherStrength01 : ℚ) : ImageData :=
  let ditherAmp := max 0 (min 1 ditherStrength01) * 32
  ⟨src.width, src.height, fun x y => quantizePixel palette ditherAmp x y (src.pix x y)⟩

/-- The binary mask of createPixelOutline (line 356): alpha above 10, and
false outside the buffer (the mask array has width times height cells). -/
def maskOf (src : ImageData) (x y : Nat) : Bool :=
  decide (x < src.width) && decide (y < src.height) && decide (10 < (src.pix x y).a)

/-- One neighbour probe of the dilation loop (lines 377-381): in-bounds
test then mask lookup. -/
def nbr (w h : Nat) (m : Nat → Nat → Bool) (nx ny : Int) : Bool :=
  decide (0 ≤ nx) && decide (nx < (w : Int)) && decide (0 ≤ ny) &&
    decide (ny < (h : Int)) && m nx.toNat ny.toNat

/-- One round of 8-connected dilation (lines 363-388): a cell of the fresh
array next is set when the cell itself or any of its eight neighbours was
set; cells outside the buffer stay unset.  The neighbour order matches the
dy outer, dx inner loops. -/
def dilateStep (w h : Nat) (m : Nat → Nat → Bool) (x y : Nat) : Bool :=
  if x < w ∧ y < h then
    m x y ||
      (nbr w h m ((x : Int) - 1) ((y : Int) - 1) || nbr w h m (x : Int) ((y : Int) - 1) ||
       nbr w h m ((x : Int) + 1) ((y : Int) - 1) || nbr w h m ((x : Int) - 1) (y : Int) ||
       nbr w h m ((x : Int) + 1) (y : Int) || nbr w h m ((x : Int) - 1) ((y : Int) + 1) ||
       nbr w h m (x : Int) ((y : Int) + 1) || nbr w h m ((x : Int) + 1) ((y : Int) + 1))
  else false

/-- thickness rounds of dilation (the for t loop, line 363). -/
def dilateN (w h : Nat) (m : Nat → Nat → Bool) : Nat → Nat → Nat → Bool
  | 0 => m
  | t + 1 => dilateStep w h (dilateN w h m t)

/-- createPixelOutline (lines 353-409).  thickness is the already floored
nonnegative integer Math.max(0, Math.floor(outlineThickness)), so the
source test thickness <= 0 is thickness = 0. -/
def createPixelOutline (src : ImageData) (thickness : Nat) : ImageData :=
  if thickness = 0 then
    ⟨src.width, src.height, fun _ _ => ⟨0, 0, 0, 0⟩⟩
  else
    ⟨src.width, src.height, fun x y =>
      if dilateN src.width src.height (maskOf src) thickness x y && !(maskOf src x y)
      then ⟨0, 0, 0, 255⟩ else ⟨0, 0, 0, 0⟩⟩

/-- The four scan variables of getOpaqueBounds (line 274): minX, minY start
at width, height; maxX, maxY start at -1 and therefore live in Int. -/
structure ScanState where
  minX : Nat
  minY : Nat
  maxX : Int
  maxY : Int
  deriving DecidableEq

/-- The body of the getOpaqueBounds double loop (lines 275-285). -/
def boundsStep (image : ImageData) (alphaThreshold : Nat)
    (st : ScanState) (p : Nat × Nat) : ScanState :=
  if alphaThreshold < (image.pix p.1 p.2).a then
    ⟨min st.minX p.1, min st.minY p.2, max st.maxX (p.1 : Int), max st.maxY (p.2 : Int)⟩
  else st

/-- The scan order of the double loop: y outer, x inner. -/
def scanPts (w h : Nat) : List (Nat × Nat) :=
  (List.range h).flatMap (fun y => (List.range w).map (fun x => (x, y)))

/-- The return step of getOpaqueBounds (lines 287-288): null when the scan
never updated the maxima, otherwise the inclusive bounding rectangle. -/
def boundsResult (st : ScanState) : Option Rect :=
  if st.maxX < (st.minX : Int) ∨ st.maxY < (st.minY : Int) then none
  else some ⟨st.minX, st.minY, (st.maxX - (st.minX : Int) + 1).toNat,
             (st.maxY - (st.minY : Int) + 1).toNat⟩

/-- getOpaqueBounds (lines 272-289). -/
def getOpaqueBounds (image : ImageData) (alphaThreshold : Nat) : Option Rect :=
  boundsResult ((scanPts image.width image.height).foldl
    (boundsStep image alphaThreshold) ⟨image.width, image.height, -1, -1⟩)

/-- The crop rectangle the pipeline uses (line 109): the opaque bounds at
threshold 16, with the full-frame rectangle as fallback. -/
def cropBoundsOf (img : ImageData) : Rect :=
  (getOpaqueBounds img 16).getD ⟨0, 0, img.width, img.height⟩

/-- The crop copy onto cropCanvas (lines 111-117): canvas dimensions are
clamped to at least 1 and the content is translated by the crop origin. -/
def cropBuffer (img : ImageData) (r : Rect) : ImageData :=
  ⟨max 1 r.w, max 1 r.h, fun x y => img.pix (r.x + x) (r.y + y)⟩

/-- The sprite grid dimensions of stage 2 (lines 120-121):
max(8, floor(dim / max(1, blockSize))) on each axis. -/
def smallDims (cropW cropH blockSize : Nat) : Nat × Nat :=
  (max 8 (cropW / max 1 blockSize), max 8 (cropH / max 1 blockSize))

/-- Modelled from the spec: the canvas drawImage resample with
imageSmoothingEnabled = false is a browser primitive absent from src/;
section 4.3 of the spec calls it nearest-neighbor resampling, here sampling
source texel (x * srcW / dstW, y * srcH / dstH). -/
def nnScale (src : ImageData) (srcW srcH dstW dstH : Nat) : ImageData :=
  ⟨dstW, dstH, fun x y => src.pix (x * srcW / dstW) (y * srcH / dstH)⟩

/-- BACKGROUND_FILL = the hex color ed8d26 (line 6). -/
def backgroundFill : RGBA := ⟨237, 141, 38, 255⟩

/-- Modelled from the spec: drawImage of a buffer scaled to tW times tH at
offset (offX, offY) with nearest-neighbor sampling and source-over
compositing; every buffer drawn here has alpha 0 or 255, so a transparent
source texel keeps the destination pixel and an opaque one replaces it. -/
def drawOver (dst src : ImageData) (srcW srcH offX offY tW tH : Nat) : ImageData :=
  ⟨dst.width, dst.height, fun x y =>
    if offX ≤ x ∧ x < offX + tW ∧ offY ≤ y ∧ y < offY + tH then
      let s := src.pix ((x - offX) * srcW / tW) ((y - offY) * srcH / tH)
      if s.a = 0 then dst.pix x y else s
    else dst.pix x y⟩

/-- Stage 5 of pixelateImage (lines 146-170): square canvas filled with the
background color, outline drawn first, sprite drawn on top, both scaled so
the longest sprite side covers max(1, floor(square * 0.6)) pixels and
centered.  square * 6 / 10 in Nat equals Math.floor(square * 0.6) for the
double closest to 0.6. -/
def compositeImage (outline sprite : ImageData) (smallW smallH square : Nat) :
    ImageData :=
  let scaledLongest := max 1 (square * 6 / 10)
  let k : ℚ := (scaledLongest : ℚ) / ((max smallW smallH : Nat) : ℚ)
  let targetW := max 1 (⌊(smallW : ℚ) * k⌋).toNat
  let targetH := max 1 (⌊(smallH : ℚ) * k⌋).toNat
  let offX := (square - targetW) / 2
  let offY := (square - targetH) / 2
  drawOver
    (drawOver ⟨square, square, fun _ _ => backgroundFill⟩ outline
      smallW smallH offX offY targetW targetH)
    sprite smallW smallH offX offY targetW targetH

/-- pixelateImage (lines 93-174) on an already decoded raster: crop to the
opaque bounds, downsample to the sprite grid, quantize, build the outline,
and composite.  ditherAmt is ditherEnabled ? ditherStrength : 0 (line 133)
and outlineThickness is already Math.max(0, Math.floor(...)) (line 143). -/
def pixelateImage (img : ImageData) (blockSize : Nat)
    (palette : List (Nat × Nat × Nat)) (ditherAmt : ℚ)
    (outlineThickness : Nat) : ImageData :=
  let cropBounds := cropBoundsOf img
  let cropped := cropBuffer img cropBounds
  let dims := smallDims cropBounds.w cropBounds.h blockSize
  let small := nnScale cropped cropBounds.w cropBounds.h dims.1 dims.2
  let quantized := quantizeImageToPalette small palette ditherAmt
  let outline := createPixelOutline quantized outlineThickness
  compositeImage outline quantized dims.1 dims.2 (max cropBounds.w cropBounds.h)

/-- Outcome of normalizeImageBlob (lines 206-226), modelled on the decoded
dimensions: either the input blob is returned unchanged (the byte-identical
no-op branch, line 212) or a fresh canvas of the computed target dimensions
is encoded.  Math.round(v) for nonnegative v is floor(v + 1/2). -/
inductive NormalizeResult where
  | unchanged
  | resized (tw th : Nat)
  deriving DecidableEq

/-- The dimension logic of normalizeImageBlob (lines 206-226). -/
def normalizeDims (w h longestSide : Nat) : NormalizeResult :=
  if max w h ≤ longestSide then .unchanged
  else
    let scale : ℚ := (longestSide : ℚ) / ((max w h : Nat) : ℚ)
    .resized (max 1 (⌊(w : ℚ) * scale + 1 / 2⌋).toNat)
             (max 1 (⌊(h : ℚ) * scale + 1 / 2⌋).toNat)

/-- Longest side of the image normalizeImageBlob returns. -/
def normalizedLongest (w h longestSide : Nat) : Nat :=
  match normalizeDims w h longestSide with
  | .unchanged => max w h
  | .resized tw th => max tw th

/-- The 64 by 64 solid red test input of the end-to-end scenario. -/
def solidRed64 : ImageData := ⟨64, 64, fun _ _ => ⟨255, 0, 0, 255⟩⟩

/-! ### Properties of findNearestInPalette -/

lemma wdist_nonneg (r g b : ℚ) (p : Nat × Nat × Nat) : 0 ≤ wdist r g b p := by
  have h1 := mul_self_nonneg (r - (p.1 : ℚ))
  have h2 := mul_self_nonneg (g - (p.2.1 : ℚ))
  have h3 := mul_self_nonneg (b - (p.2.2 : ℚ))
  simp only [wdist]
  linarith

lemma wdist_self (rn gn bn : Nat) :
    wdist (rn : ℚ) (gn : ℚ) (bn : ℚ) (rn, gn, bn) = 0 := by
  simp [wdist]

lemma wdist_eq_zero {r g b : ℚ} {p : Nat × Nat × Nat} (h : wdist r g b p = 0) :
    ((p.1 : ℚ) = r ∧ (p.2.1 : ℚ) = g ∧ (p.2.2 : ℚ) = b) := by
  simp only [wdist] at h
  have h1 := mul_self_nonneg (r - (p.1 : ℚ))
  have h2 := mul_self_nonneg (g - (p.2.1 : ℚ))
  have h3 := mul_self_nonneg (b - (p.2.2 : ℚ))
  have e1 : (r - (p.1 : ℚ)) * (r - (p.1 : ℚ)) = 0 :=
    le_antisymm (by linarith) h1
  have e2 : (g - (p.2.1 : ℚ)) * (g - (p.2.1 : ℚ)) = 0 :=
    le_antisymm (by linarith) h2
  have e3 : (b - (p.2.2 : ℚ)) * (b - (p.2.2 : ℚ)) = 0 :=
    le_antisymm (by linarith) h3
  exact ⟨(sub_eq_zero.mp (mul_self_eq_zero.mp e1)).symm,
    (sub_eq_zero.mp (mul_self_eq_zero.mp e2)).symm,
    (sub_eq_zero.mp (mul_self_eq_zero.mp e3)).symm⟩

lemma nearAux_spec (r g b : ℚ) (pal : List (Nat × Nat × Nat)) :
    ∀ (l : List (Nat × Nat × Nat)) (i bI : Nat) (bD : ℚ),
      pal.drop i = l → bI < pal.length →
      wdist r g b (pal.getD bI (0, 0, 0)) = bD →
      nearAux r g b l i bD bI < pal.length ∧
      wdist r g b (pal.getD (nearAux r g b l i bD bI) (0, 0, 0)) ≤ bD ∧
      ∀ q ∈ l, wdist r g b (pal.getD (nearAux r g b l i bD bI) (0, 0, 0)) ≤ wdist r g b q := by
  intro l
  induction l with
  | nil =>
    intro i bI bD hdrop hbI hbD
    exact ⟨hbI, le_of_eq hbD, by intro q hq; cases hq⟩
  | cons p rest ih =>
    intro i bI bD hdrop hbI hbD
    have hi : i < pal.length := by
      by_contra hle
      push_neg at hle
      rw [List.drop_eq_nil_of_le hle] at hdrop
      exact absurd hdrop (by simp)
    have hcons : p :: rest = pal[i] :: pal.drop (i + 1) := by
      rw [← hdrop, List.drop_eq_getElem_cons hi]
    have hp : p = pal[i] := by injection hcons
    have hrest : rest = pal.drop (i + 1) := by injection hcons
    have hgd : pal.getD i (0, 0, 0) = p := by
      rw [List.getD_eq_getElem pal (0, 0, 0) hi, ← hp]
    simp only [nearAux]
    by_cases hlt : wdist r g b p < bD
    · rw [if_pos hlt]
      obtain ⟨h1, h2, h3⟩ := ih (i + 1) i (wdist r g b p) hrest.symm hi (by rw [hgd])
      refine ⟨h1, le_trans h2 hlt.le, ?_⟩
      intro q hq
      rcases List.mem_cons.mp hq with hq | hq
      · subst hq; exact h2
      · exact h3 q hq
    · rw [if_neg hlt]
      obtain ⟨h1, h2, h3⟩ := ih (i + 1) bI bD hrest.symm hbI hbD
      refine ⟨h1, h2, ?_⟩
      intro q hq
      rcases List.mem_cons.mp hq with hq | hq
      · subst hq; exact le_trans h2 (not_lt.mp hlt)
      · exact h3 q hq

lemma findNearestInPalette_mem (r g b : ℚ) (pal : List (Nat × Nat × Nat))
    (hpal : pal ≠ []) : findNearestInPalette r g b pal ∈ pal := by
  match pal, hpal with
  | p :: rest, _ =>
    obtain ⟨h1, _, _⟩ := nearAux_spec r g b (p :: rest) rest 1 0 (wdist r g b p)
      rfl (by simp) rfl
    simp only [findNearestInPalette]
    rw [List.getD_eq_getElem _ _ h1]
    exact List.getElem_mem h1

lemma findNearestInPalette_self (rn gn bn : Nat) (pal : List (Nat × Nat × Nat))
    (hmem : (rn, gn, bn) ∈ pal) :
    findNearestInPalette (rn : ℚ) (gn : ℚ) (bn : ℚ) pal = (rn, gn, bn) := by
  match pal with
  | [] => cases hmem
  | p :: rest =>
    obtain ⟨h1, h2, h3⟩ := nearAux_spec (rn : ℚ) (gn : ℚ) (bn : ℚ) (p :: rest) rest 1 0
      (wdist (rn : ℚ) (gn : ℚ) (bn : ℚ) p) rfl (by simp) rfl
    set res := nearAux (rn : ℚ) (gn : ℚ) (bn : ℚ) rest 1
      (wdist (rn : ℚ) (gn : ℚ) (bn : ℚ) p) 0 with hres
    have hle : wdist (rn : ℚ) (gn : ℚ) (bn : ℚ) ((p :: rest).getD res (0, 0, 0)) ≤ 0 := by
      rcases List.mem_cons.mp hmem with h | h
      · have hz0 : wdist (rn : ℚ) (gn : ℚ) (bn : ℚ) p = 0 := by
          rw [← h, wdist_self]
        exact h2.trans (le_of_eq hz0)
      · have := h3 _ h
        rw [wdist_self] at this
        exact this
    have hz := le_antisymm hle (wdist_nonneg _ _ _ _)
    obtain ⟨e1, e2, e3⟩ := wdist_eq_zero hz
    simp only [findNearestInPalette]
    have hq1 : ((p :: rest).getD res (0, 0, 0)).1 = rn := Nat.cast_inj.mp e1
    have hq2 : ((p :: rest).getD res (0, 0, 0)).2.1 = gn := Nat.cast_inj.mp e2
    have hq3 : ((p :: rest).getD res (0, 0, 0)).2.2 = bn := Nat.cast_inj.mp e3
    exact Prod.ext_iff.mpr ⟨hq1, Prod.ext_iff.mpr ⟨hq2, hq3⟩⟩

/-! ### Quantizer claims -/

lemma quantizePixel_opaque (palette : List (Nat × Nat × Nat)) (ditherAmp : ℚ)
    (x y : Nat) (px : RGBA) (ha : ¬ px.a < 5) :
    ∃ r g b : ℚ, quantizePixel palette ditherAmp x y px =
      ⟨(findNearestInPalette r g b palette).1, (findNearestInPalette r g b palette).2.1,
       (findNearestInPalette r g b palette).2.2, 255⟩ := by
  simp only [quantizePixel]
  rw [if_neg ha]
  exact ⟨_, _, _, rfl⟩

lemma quantizeImage_pix (src : ImageData) (palette : List (Nat × Nat × Nat))
    (d : ℚ) (x y : Nat) :
    (quantizeImageToPalette src palette d).pix x y =
      quantizePixel palette (max 0 (min 1 d) * 32) x y (src.pix x y) := rfl

/-- C1: for every buffer, nonempty palette (all five supported palettes are
nonempty) and dither strength, a pixel of alpha at least 5 is mapped to a
palette entry with alpha 255, and a pixel of alpha below 5 to (0,0,0,0). -/
theorem C1_quantizer_palette_closure (src : ImageData)
    (palette : List (Nat × Nat × Nat)) (ditherStrength01 : ℚ)
    (hpal : palette ≠ []) (x y : Nat) :
    (5 ≤ (src.pix x y).a →
      ∃ p ∈ palette, (quantizeImageToPalette src palette ditherStrength01).pix x y =
        ⟨p.1, p.2.1, p.2.2, 255⟩) ∧
    ((src.pix x y).a < 5 →
      (quantizeImageToPalette src palette ditherStrength01).pix x y = ⟨0, 0, 0, 0⟩) := by
  constructor
  · intro ha
    rw [quantizeImage_pix]
    obtain ⟨r, g, b, heq⟩ := quantizePixel_opaque palette
      (max 0 (min 1 ditherStrength01) * 32) x y (src.pix x y) (by omega)
    exact ⟨findNearestInPalette r g b palette,
      findNearestInPalette_mem r g b palette hpal, heq⟩
  · intro ha
    rw [quantizeImage_pix]
    simp only [quantizePixel]
    rw [if_pos ha]

/-- Witness for C1 at the solid red input and the pico8 palette. -/
theorem C1_quantizer_palette_closure_witness :
    (PALETTES .pico8 ≠ []) ∧ 5 ≤ (solidRed64.pix 0 0).a ∧
    ∃ p ∈ PALETTES .pico8,
      (quantizeImageToPalette solidRed64 (PALETTES .pico8) 0).pix 0 0 =
        ⟨p.1, p.2.1, p.2.2, 255⟩ :=
  ⟨by decide, by decide,
    (C1_quantizer_palette_closure solidRed64 (PALETTES .pico8) 0 (by decide) 0 0).1
      (by decide)⟩

lemma quantizePixel_palette_fixed (palette : List (Nat × Nat × Nat))
    (p : Nat × Nat × Nat) (hp : p ∈ palette) (x y : Nat) :
    quantizePixel palette 0 x y ⟨p.1, p.2.1, p.2.2, 255⟩ = ⟨p.1, p.2.1, p.2.2, 255⟩ := by
  simp only [quantizePixel]
  rw [if_neg (by norm_num), if_neg (lt_irrefl 0)]
  rw [findNearestInPalette_self p.1 p.2.1 p.2.2 palette hp]

lemma quantizePixel_idem (palette : List (Nat × Nat × Nat)) (hpal : palette ≠ [])
    (x y : Nat) (px : RGBA) :
    quantizePixel palette 0 x y (quantizePixel palette 0 x y px) =
      quantizePixel palette 0 x y px := by
  by_cases ha : px.a < 5
  · simp only [quantizePixel]
    rw [if_pos ha]
    rw [if_pos (by norm_num)]
  · obtain ⟨r, g, b, heq⟩ := quantizePixel_opaque palette 0 x y px ha
    rw [heq]
    exact quantizePixel_palette_fixed palette _
      (findNearestInPalette_mem r g b palette hpal) x y

lemma dither_amp_zero : max 0 (min 1 (0 : ℚ)) * 32 = 0 := by norm_num

/-- C2: with dither strength 0 the quantizer is a pure function of the
input pixel and is idempotent; a pixel equal to a palette entry with alpha
255 is mapped to itself (the strict comparison in the scan keeps the
first-lowest index on ties, so the first entry at distance zero wins). -/
theorem C2_quantizer_idempotent (src : ImageData)
    (palette : List (Nat × Nat × Nat)) (hpal : palette ≠ []) :
    quantizeImageToPalette (quantizeImageToPalette src palette 0) palette 0 =
      quantizeImageToPalette src palette 0 ∧
    ∀ x y p, p ∈ palette → src.pix x y = ⟨p.1, p.2.1, p.2.2, 255⟩ →
      (quantizeImageToPalette src palette 0).pix x y = src.pix x y := by
  constructor
  · show ImageData.mk _ _ _ = ImageData.mk _ _ _
    simp only [quantizeImageToPalette, ImageData.mk.injEq, dither_amp_zero]
    refine ⟨trivial, trivial, ?_⟩
    funext x y
    exact quantizePixel_idem palette hpal x y (src.pix x y)
  · intro x y p hp hpx
    rw [quantizeImage_pix, dither_amp_zero, hpx]
    exact quantizePixel_palette_fixed palette p hp x y

/-- Witness for C2 at the solid red input and the pico8 palette. -/
theorem C2_quantizer_idempotent_witness :
    (PALETTES .pico8 ≠ []) ∧
    quantizeImageToPalette
        (quantizeImageToPalette solidRed64 (PALETTES .pico8) 0) (PALETTES .pico8) 0 =
      quantizeImageToPalette solidRed64 (PALETTES .pico8) 0 :=
  ⟨by decide, (C2_quantizer_idempotent solidRed64 (PALETTES .pico8) (by decide)).1⟩

/-! ### Outline claims -/

lemma createPixelOutline_pos (src : ImageData) (t : Nat) (ht : 1 ≤ t) :
    createPixelOutline src t =
      ⟨src.width, src.height, fun x y =>
        if dilateN src.width src.height (maskOf src) t x y && !(maskOf src x y)
        then ⟨0, 0, 0, 255⟩ else ⟨0, 0, 0, 0⟩⟩ := by
  rw [createPixelOutline, if_neg (by omega)]

/-- C8: createPixelOutline with thickness 0 keeps the dimensions and
produces a fully transparent buffer. -/
theorem C8_outline_thickness_zero (src : ImageData) :
    (createPixelOutline src 0).width = src.width ∧
    (createPixelOutline src 0).height = src.height ∧
    ∀ x y, (createPixelOutline src 0).pix x y = ⟨0, 0, 0, 0⟩ :=
  ⟨rfl, rfl, fun _ _ => rfl⟩

/-- C3: for thickness at least 1 the outline band is disjoint from the
original mask: a pixel whose input alpha exceeds 10 is never painted, a
pixel is opaque black exactly when the thickness-round dilation of the
mask covers it but the mask itself does not, and every other pixel is
fully transparent.  Input coordinates are nonnegative by the Nat type. -/
theorem C3_outline_disjoint (src : ImageData) (t : Nat) (ht : 1 ≤ t) :
    (createPixelOutline src t).width = src.width ∧
    (createPixelOutline src t).height = src.height ∧
    (∀ x y, x < src.width → y < src.height → 10 < (src.pix x y).a →
      (createPixelOutline src t).pix x y = ⟨0, 0, 0, 0⟩) ∧
    (∀ x y, (createPixelOutline src t).pix x y = ⟨0, 0, 0, 255⟩ ↔
      (dilateN src.width src.height (maskOf src) t x y = true ∧
        maskOf src x y = false)) ∧
    (∀ x y, ¬ (dilateN src.width src.height (maskOf src) t x y = true ∧
        maskOf src x y = false) →
      (createPixelOutline src t).pix x y = ⟨0, 0, 0, 0⟩) := by
  rw [createPixelOutline_pos src t ht]
  refine ⟨rfl, rfl, ?_, ?_, ?_⟩
  · intro x y hx hy ha
    have hm : maskOf src x y = true := by
      simp [maskOf, hx, hy, ha]
    simp [hm]
  · intro x y
    rcases hd : dilateN src.width src.height (maskOf src) t x y with _ | _ <;>
      rcases hm : maskOf src x y with _ | _ <;> simp [hd, hm]
  · intro x y hnot
    rcases hd : dilateN src.width src.height (maskOf src) t x y with _ | _ <;>
      rcases hm : maskOf src x y with _ | _ <;> simp [hd, hm] <;>
        exact absurd ⟨hd, hm⟩ hnot

/-- Witness for C3 on a 2 by 2 image with one opaque pixel. -/
theorem C3_outline_disjoint_witness :
    (1 ≤ 1) ∧
    ((createPixelOutline ⟨2, 2, fun x y =>
        if x = 0 ∧ y = 0 then ⟨1, 2, 3, 255⟩ else ⟨0, 0, 0, 0⟩⟩ 1).pix 0 0 = ⟨0, 0, 0, 0⟩) := by
  refine ⟨le_refl 1, ?_⟩
  exact (C3_outline_disjoint ⟨2, 2, fun x y =>
    if x = 0 ∧ y = 0 then ⟨1, 2, 3, 255⟩ else ⟨0, 0, 0, 0⟩⟩ 1 (le_refl 1)).2.2.1
    0 0 (by decide) (by decide) (by decide)

/-- The fully set in-bounds mask. -/
def fullMask (w h : Nat) : Nat → Nat → Bool :=
  fun x y => decide (x < w) && decide (y < h)

lemma dilateStep_fullMask (w h : Nat) :
    dilateStep w h (fullMask w h) = fullMask w h := by
  funext x y
  by_cases hx : x < w ∧ y < h
  · rw [dilateStep, if_pos hx]
    simp [fullMask, hx.1, hx.2]
  · rw [dilateStep, if_neg hx]
    rcases not_and_or.mp hx with hx | hx <;> simp [fullMask, hx]

lemma dilateN_fullMask (w h t : Nat) :
    dilateN w h (fullMask w h) t = fullMask w h := by
  induction t with
  | zero => rfl
  | succ t ih => rw [dilateN, ih, dilateStep_fullMask]

lemma maskOf_eq_fullMask (src : ImageData)
    (hall : ∀ x y, x < src.width → y < src.height → 10 < (src.pix x y).a) :
    maskOf src = fullMask src.width src.height := by
  funext x y
  by_cases hx : x < src.width
  · by_cases hy : y < src.height
    · simp [maskOf, fullMask, hx, hy, hall x y hx hy]
    · simp [maskOf, fullMask, hy]
  · simp [maskOf, fullMask, hx]

/-- C10: when every in-bounds pixel has alpha above 10 the mask is full,
dilation cannot grow it (out-of-bounds neighbours count as unset), and the
outline is therefore empty: the output is fully transparent. -/
theorem C10_outline_full_mask_empty (src : ImageData) (t : Nat) (ht : 1 ≤ t)
    (hall : ∀ x y, x < src.width → y < src.height → 10 < (src.pix x y).a) :
    ∀ x y, (createPixelOutline src t).pix x y = ⟨0, 0, 0, 0⟩ := by
  intro x y
  rw [createPixelOutline_pos src t ht]
  show (if _ then _ else _) = _
  rw [maskOf_eq_fullMask src hall, dilateN_fullMask]
  simp

/-- Witness for C10 on a 2 by 2 fully opaque image. -/
theorem C10_outline_full_mask_empty_witness :
    (1 ≤ 1) ∧ (∀ x y, x < 2 → y < 2 →
      10 < ((⟨2, 2, fun _ _ => ⟨7, 7, 7, 255⟩⟩ : ImageData).pix x y).a) ∧
    ((createPixelOutline ⟨2, 2, fun _ _ => ⟨7, 7, 7, 255⟩⟩ 1).pix 1 1 = ⟨0, 0, 0, 0⟩) :=
  ⟨le_refl 1, fun x y hx hy => (by decide : (10 : Nat) < 255),
    C10_outline_full_mask_empty ⟨2, 2, fun _ _ => ⟨7, 7, 7, 255⟩⟩ 1 (le_refl 1)
      (fun x y hx hy => (by decide : (10 : Nat) < 255)) 1 1⟩

/-! ### Subject cropper claims -/

lemma boundsStep_mono (img : ImageData) (thr : Nat) (st : ScanState) (p : Nat × Nat) :
    (boundsStep img thr st p).minX ≤ st.minX ∧ (boundsStep img thr st p).minY ≤ st.minY ∧
    st.maxX ≤ (boundsStep img thr st p).maxX ∧ st.maxY ≤ (boundsStep img thr st p).maxY := by
  unfold boundsStep
  split
  · exact ⟨min_le_left _ _, min_le_left _ _, le_max_left _ _, le_max_left _ _⟩
  · exact ⟨le_refl _, le_refl _, le_refl _, le_refl _⟩

lemma boundsFold_mono (img : ImageData) (thr : Nat) :
    ∀ (pts : List (Nat × Nat)) (st : ScanState),
      (pts.foldl (boundsStep img thr) st).minX ≤ st.minX ∧
      (pts.foldl (boundsStep img thr) st).minY ≤ st.minY ∧
      st.maxX ≤ (pts.foldl (boundsStep img thr) st).maxX ∧
      st.maxY ≤ (pts.foldl (boundsStep img thr) st).maxY := by
  intro pts
  induction pts with
  | nil => intro st; exact ⟨le_refl _, le_refl _, le_refl _, le_refl _⟩
  | cons q pts ih =>
    intro st
    simp only [List.foldl_cons]
    obtain ⟨h1, h2, h3, h4⟩ := ih (boundsStep img thr st q)
    obtain ⟨m1, m2, m3, m4⟩ := boundsStep_mono img thr st q
    exact ⟨le_trans h1 m1, le_trans h2 m2, le_trans m3 h3, le_trans m4 h4⟩

lemma boundsFold_dominates (img : ImageData) (thr : Nat) :
    ∀ (pts : List (Nat × Nat)) (st : ScanState) (p : Nat × Nat),
      p ∈ pts → thr < (img.pix p.1 p.2).a →
      (pts.foldl (boundsStep img thr) st).minX ≤ p.1 ∧
      (pts.foldl (boundsStep img thr) st).minY ≤ p.2 ∧
      (p.1 : Int) ≤ (pts.foldl (boundsStep img thr) st).maxX ∧
      (p.2 : Int) ≤ (pts.foldl (boundsStep img thr) st).maxY := by
  intro pts
  induction pts with
  | nil => intro st p hp; cases hp
  | cons q pts ih =>
    intro st p hp hq
    simp only [List.foldl_cons]
    rcases List.mem_cons.mp hp with h | h
    · subst h
      have hstep : (boundsStep img thr st p).minX ≤ p.1 ∧
          (boundsStep img thr st p).minY ≤ p.2 ∧
          (p.1 : Int) ≤ (boundsStep img thr st p).maxX ∧
          (p.2 : Int) ≤ (boundsStep img thr st p).maxY := by
        unfold boundsStep
        rw [if_pos hq]
        exact ⟨min_le_right _ _, min_le_right _ _, le_max_right _ _, le_max_right _ _⟩
      obtain ⟨m1, m2, m3, m4⟩ := boundsFold_mono img thr pts (boundsStep img thr st p)
      exact ⟨le_trans m1 hstep.1, le_trans m2 hstep.2.1,
        le_trans hstep.2.2.1 m3, le_trans hstep.2.2.2 m4⟩
    · exact ih (boundsStep img thr st q) p h hq

lemma boundsStep_qual (img : ImageData) (thr : Nat) (st : ScanState) (p : Nat × Nat)
    (hq : thr < (img.pix p.1 p.2).a) :
    boundsStep img thr st p =
      ⟨min st.minX p.1, min st.minY p.2, max st.maxX (p.1 : Int), max st.maxY (p.2 : Int)⟩ := by
  unfold boundsStep
  rw [if_pos hq]

lemma boundsStep_skip (img : ImageData) (thr : Nat) (st : ScanState) (p : Nat × Nat)
    (hq : ¬ thr < (img.pix p.1 p.2).a) : boundsStep img thr st p = st := by
  unfold boundsStep
  rw [if_neg hq]

lemma boundsFold_minX_reached (img : ImageData) (thr : Nat) :
    ∀ (pts : List (Nat × Nat)) (st : ScanState),
      (pts.foldl (boundsStep img thr) st).minX = st.minX ∨
      ∃ p ∈ pts, thr < (img.pix p.1 p.2).a ∧
        (pts.foldl (boundsStep img thr) st).minX = p.1 := by
  intro pts
  induction pts with
  | nil => intro st; exact Or.inl rfl
  | cons q pts ih =>
    intro st
    simp only [List.foldl_cons]
    by_cases hq : thr < (img.pix q.1 q.2).a
    · rw [boundsStep_qual img thr st q hq]
      rcases ih ⟨min st.minX q.1, min st.minY q.2, max st.maxX (q.1 : Int),
          max st.maxY (q.2 : Int)⟩ with h | ⟨p, hp, hqp, he⟩
      · rcases min_cases st.minX q.1 with ⟨hm, _⟩ | ⟨hm, _⟩
        · exact Or.inl (by rw [h]; exact hm)
        · exact Or.inr ⟨q, List.mem_cons_self _ _, hq, by rw [h]; exact hm⟩
      · exact Or.inr ⟨p, List.mem_cons_of_mem _ hp, hqp, he⟩
    · rw [boundsStep_skip img thr st q hq]
      rcases ih st with h | ⟨p, hp, hqp, he⟩
      · exact Or.inl h
      · exact Or.inr ⟨p, List.mem_cons_of_mem _ hp, hqp, he⟩

lemma boundsFold_minY_reached (img : ImageData) (thr : Nat) :
    ∀ (pts : List (Nat × Nat)) (st : ScanState),
      (pts.foldl (boundsStep img thr) st).minY = st.minY ∨
      ∃ p ∈ pts, thr < (img.pix p.1 p.2).a ∧
        (pts.foldl (boundsStep img thr) st).minY = p.2 := by
  intro pts
  induction pts with
  | nil => intro st; exact Or.inl rfl
  | cons q pts ih =>
    intro st
    simp only [List.foldl_cons]
    by_cases hq : thr < (img.pix q.1 q.2).a
    · rw [boundsStep_qual img thr st q hq]
      rcases ih ⟨min st.minX q.1, min st.minY q.2, max st.maxX (q.1 : Int),
          max st.maxY (q.2 : Int)⟩ with h | ⟨p, hp, hqp, he⟩
      · rcases min_cases st.minY q.2 with ⟨hm, _⟩ | ⟨hm, _⟩
        · exact Or.inl (by rw [h]; exact hm)
        · exact Or.inr ⟨q, List.mem_cons_self _ _, hq, by rw [h]; exact hm⟩
      · exact Or.inr ⟨p, List.mem_cons_of_mem _ hp, hqp, he⟩
    · rw [boundsStep_skip img thr st q hq]
      rcases ih st with h | ⟨p, hp, hqp, he⟩
      · exact Or.inl h
      · exact Or.inr ⟨p, List.mem_cons_of_mem _ hp, hqp, he⟩

lemma boundsFold_maxX_reached (img : ImageData) (thr : Nat) :
    ∀ (pts : List (Nat × Nat)) (st : ScanState),
      (pts.foldl (boundsStep img thr) st).maxX = st.maxX ∨
      ∃ p ∈ pts, thr < (img.pix p.1 p.2).a ∧
        (pts.foldl (boundsStep img thr) st).maxX = (p.1 : Int) := by
  intro pts
  induction pts with
  | nil => intro st; exact Or.inl rfl
  | cons q pts ih =>
    intro st
    simp only [List.foldl_cons]
    by_cases hq : thr < (img.pix q.1 q.2).a
    · rw [boundsStep_qual img thr st q hq]
      rcases ih ⟨min st.minX q.1, min st.minY q.2, max st.maxX (q.1 : Int),
          max st.maxY (q.2 : Int)⟩ with h | ⟨p, hp, hqp, he⟩
      · rcases max_cases st.maxX ((q.1 : Nat) : Int) with ⟨hm, _⟩ | ⟨hm, _⟩
        · exact Or.inl (by rw [h]; exact hm)
        · exact Or.inr ⟨q, List.mem_cons_self _ _, hq, by rw [h]; exact hm⟩
      · exact Or.inr ⟨p, List.mem_cons_of_mem _ hp, hqp, he⟩
    · rw [boundsStep_skip img thr st q hq]
      rcases ih st with h | ⟨p, hp, hqp, he⟩
      · exact Or.inl h
      · exact Or.inr ⟨p, List.mem_cons_of_mem _ hp, hqp, he⟩

lemma boundsFold_maxY_reached (img : ImageData) (thr : Nat) :
    ∀ (pts : List (Nat × Nat)) (st : ScanState),
      (pts.foldl (boundsStep img thr) st).maxY = st.maxY ∨
      ∃ p ∈ pts, thr < (img.pix p.1 p.2).a ∧
        (pts.foldl (boundsStep img thr) st).maxY = (p.2 : Int) := by
  intro pts
  induction pts with
  | nil => intro st; exact Or.inl rfl
  | cons q pts ih =>
    intro st
    simp only [List.foldl_cons]
    by_cases hq : thr < (img.pix q.1 q.2).a
    · rw [boundsStep_qual img thr st q hq]
      rcases ih ⟨min st.minX q.1, min st.minY q.2, max st.maxX (q.1 : Int),
          max st.maxY (q.2 : Int)⟩ with h | ⟨p, hp, hqp, he⟩
      · rcases max_cases st.maxY ((q.2 : Nat) : Int) with ⟨hm, _⟩ | ⟨hm, _⟩
        · exact Or.inl (by rw [h]; exact hm)
        · exact Or.inr ⟨q, List.mem_cons_self _ _, hq, by rw [h]; exact hm⟩
      · exact Or.inr ⟨p, List.mem_cons_of_mem _ hp, hqp, he⟩
    · rw [boundsStep_skip img thr st q hq]
      rcases ih st with h | ⟨p, hp, hqp, he⟩
      · exact Or.inl h
      · exact Or.inr ⟨p, List.mem_cons_of_mem _ hp, hqp, he⟩

lemma boundsFold_unchanged (img : ImageData) (thr : Nat) :
    ∀ (pts : List (Nat × Nat)) (st : ScanState),
      (∀ p ∈ pts, ¬ thr < (img.pix p.1 p.2).a) →
      pts.foldl (boundsStep img thr) st = st := by
  intro pts
  induction pts with
  | nil => intro st _; rfl
  | cons q pts ih =>
    intro st hall
    simp only [List.foldl_cons]
    rw [boundsStep_skip img thr st q (hall q (List.mem_cons_self _ _))]
    exact ih st (fun p hp => hall p (List.mem_cons_of_mem _ hp))

lemma mem_scanPts (w h x y : Nat) : (x, y) ∈ scanPts w h ↔ x < w ∧ y < h := by
  simp only [scanPts, List.mem_flatMap, List.mem_map, List.mem_range, Prod.mk.injEq]
  constructor
  · rintro ⟨b, hb, a, ha, h1, h2⟩
    omega
  · rintro ⟨hx, hy⟩
    exact ⟨y, hy, x, hx, rfl, rfl⟩

lemma getOpaqueBounds_none (img : ImageData) (thr : Nat)
    (hall : ∀ x y, x < img.width → y < img.height → ¬ thr < (img.pix x y).a) :
    getOpaqueBounds img thr = none := by
  unfold getOpaqueBounds
  rw [boundsFold_unchanged img thr (scanPts img.width img.height)
    ⟨img.width, img.height, -1, -1⟩ ?hall]
  case hall =>
    intro p hp
    obtain ⟨hx, hy⟩ := (mem_scanPts img.width img.height p.1 p.2).mp hp
    exact hall p.1 p.2 hx hy
  unfold boundsResult
  rw [if_pos (Or.inl (by show (-1 : Int) < (img.width : Int); omega))]

lemma getOpaqueBounds_isSome (img : ImageData) (thr x y : Nat)
    (hx : x < img.width) (hy : y < img.height) (ha : thr < (img.pix x y).a) :
    ∃ r, getOpaqueBounds img thr = some r := by
  have hmem : ((x, y) : Nat × Nat) ∈ scanPts img.width img.height :=
    (mem_scanPts img.width img.height x y).mpr ⟨hx, hy⟩
  obtain ⟨d1, d2, d3, d4⟩ := boundsFold_dominates img thr
    (scanPts img.width img.height) ⟨img.width, img.height, -1, -1⟩ (x, y) hmem ha
  unfold getOpaqueBounds boundsResult
  rw [if_neg]
  · exact ⟨_, rfl⟩
  · push_neg
    constructor
    · have : ((scanPts img.width img.height).foldl (boundsStep img thr)
          ⟨img.width, img.height, -1, -1⟩).minX ≤ x := d1
      omega
    · have : ((scanPts img.width img.height).foldl (boundsStep img thr)
          ⟨img.width, img.height, -1, -1⟩).minY ≤ y := d2
      omega

lemma getOpaqueBounds_some_spec (img : ImageData) (thr : Nat) (r : Rect)
    (h : getOpaqueBounds img thr = some r) :
    (r.x + r.w ≤ img.width ∧ r.y + r.h ≤ img.height ∧ 1 ≤ r.w ∧ 1 ≤ r.h) ∧
    (∀ x y, x < img.width → y < img.height → thr < (img.pix x y).a →
      r.x ≤ x ∧ x < r.x + r.w ∧ r.y ≤ y ∧ y < r.y + r.h) ∧
    (∃ x y, (x < img.width ∧ y < img.height ∧ thr < (img.pix x y).a) ∧ x = r.x) ∧
    (∃ x y, (x < img.width ∧ y < img.height ∧ thr < (img.pix x y).a) ∧
      x = r.x + (r.w - 1)) ∧
    (∃ x y, (x < img.width ∧ y < img.height ∧ thr < (img.pix x y).a) ∧ y = r.y) ∧
    (∃ x y, (x < img.width ∧ y < img.height ∧ thr < (img.pix x y).a) ∧
      y = r.y + (r.h - 1)) := by
  unfold getOpaqueBounds boundsResult at h
  set S := (scanPts img.width img.height).foldl (boundsStep img thr)
    ⟨img.width, img.height, -1, -1⟩ with hS
  by_cases hc : S.maxX < (S.minX : Int) ∨ S.maxY < (S.minY : Int)
  · rw [if_pos hc] at h
    exact absurd h (by simp)
  · rw [if_neg hc] at h
    push_neg at hc
    obtain ⟨hxle, hyle⟩ := hc
    have hr : r = ⟨S.minX, S.minY, (S.maxX - (S.minX : Int) + 1).toNat,
        (S.maxY - (S.minY : Int) + 1).toNat⟩ := (Option.some.inj h).symm
    rcases boundsFold_maxX_reached img thr (scanPts img.width img.height)
        ⟨img.width, img.height, -1, -1⟩ with hmx | ⟨p, hp, hqp, hex⟩
    · rw [← hS] at hmx
      exfalso
      have hmx2 : S.maxX = -1 := hmx
      omega
    · rw [← hS] at hex
      obtain ⟨hpx, hpy⟩ := (mem_scanPts img.width img.height p.1 p.2).mp hp
      rcases boundsFold_maxY_reached img thr (scanPts img.width img.height)
          ⟨img.width, img.height, -1, -1⟩ with hmy | ⟨p2, hp2, hqp2, hey⟩
      · rw [← hS] at hmy
        exfalso
        have hmy2 : S.maxY = -1 := hmy
        omega
      · rw [← hS] at hey
        obtain ⟨hp2x, hp2y⟩ := (mem_scanPts img.width img.height p2.1 p2.2).mp hp2
        rcases boundsFold_minX_reached img thr (scanPts img.width img.height)
            ⟨img.width, img.height, -1, -1⟩ with hnx | ⟨p3, hp3, hqp3, henx⟩
        · rw [← hS] at hnx
          exfalso
          have hnx2 : S.minX = img.width := hnx
          obtain ⟨d1, _, _, _⟩ := boundsFold_dominates img thr
            (scanPts img.width img.height) ⟨img.width, img.height, -1, -1⟩ p hp hqp
          rw [← hS] at d1
          omega
        · rw [← hS] at henx
          obtain ⟨hp3x, hp3y⟩ := (mem_scanPts img.width img.height p3.1 p3.2).mp hp3
          rcases boundsFold_minY_reached img thr (scanPts img.width img.height)
              ⟨img.width, img.height, -1, -1⟩ with hny | ⟨p4, hp4, hqp4, heny⟩
          · rw [← hS] at hny
            exfalso
            have hny2 : S.minY = img.height := hny
            obtain ⟨_, d2, _, _⟩ := boundsFold_dominates img thr
              (scanPts img.width img.height) ⟨img.width, img.height, -1, -1⟩ p hp hqp
            rw [← hS] at d2
            omega
          · rw [← hS] at heny
            obtain ⟨hp4x, hp4y⟩ := (mem_scanPts img.width img.height p4.1 p4.2).mp hp4
            have hwInt : (((S.maxX - (S.minX : Int) + 1).toNat : Int)) =
                S.maxX - (S.minX : Int) + 1 := Int.toNat_of_nonneg (by omega)
            have hhInt : (((S.maxY - (S.minY : Int) + 1).toNat : Int)) =
                S.maxY - (S.minY : Int) + 1 := Int.toNat_of_nonneg (by omega)
            subst hr
            refine ⟨⟨?_, ?_, ?_, ?_⟩, ?_, ?_, ?_, ?_, ?_⟩
            · show S.minX + (S.maxX - (S.minX : Int) + 1).toNat ≤ img.width
              omega
            · show S.minY + (S.maxY - (S.minY : Int) + 1).toNat ≤ img.height
              omega
            · show 1 ≤ (S.maxX - (S.minX : Int) + 1).toNat
              omega
            · show 1 ≤ (S.maxY - (S.minY : Int) + 1).toNat
              omega
            · intro x y hx hy ha
              have hmem : ((x, y) : Nat × Nat) ∈ scanPts img.width img.height :=
                (mem_scanPts img.width img.height x y).mpr ⟨hx, hy⟩
              obtain ⟨d1, d2, d3, d4⟩ := boundsFold_dominates img thr
                (scanPts img.width img.height) ⟨img.width, img.height, -1, -1⟩ (x, y) hmem ha
              rw [← hS] at d1 d2 d3 d4
              refine ⟨d1, ?_, d2, ?_⟩
              · show x < S.minX + (S.maxX - (S.minX : Int) + 1).toNat
                omega
              · show y < S.minY + (S.maxY - (S.minY : Int) + 1).toNat
                omega
            · exact ⟨p3.1, p3.2, ⟨hp3x, hp3y, hqp3⟩, henx.symm⟩
            · refine ⟨p.1, p.2, ⟨hpx, hpy, hqp⟩, ?_⟩
              show p.1 = S.minX + ((S.maxX - (S.minX : Int) + 1).toNat - 1)
              omega
            · exact ⟨p4.1, p4.2, ⟨hp4x, hp4y, hqp4⟩, heny.symm⟩
            · refine ⟨p2.1, p2.2, ⟨hp2x, hp2y, hqp2⟩, ?_⟩
              show p2.2 = S.minY + ((S.maxY - (S.minY : Int) + 1).toNat - 1)
              omega

lemma getOpaqueBounds_full (img : ImageData) (thr : Nat)
    (hw : 1 ≤ img.width) (hh : 1 ≤ img.height)
    (hall : ∀ x y, x < img.width → y < img.height → thr < (img.pix x y).a) :
    getOpaqueBounds img thr = some ⟨0, 0, img.width, img.height⟩ := by
  obtain ⟨r, hr⟩ := getOpaqueBounds_isSome img thr 0 0 (by omega) (by omega)
    (hall 0 0 (by omega) (by omega))
  obtain ⟨⟨hi1, hi2, hi3, hi4⟩, hcont, _⟩ := getOpaqueBounds_some_spec img thr r hr
  obtain ⟨c1, c2, c3, c4⟩ := hcont 0 0 (by omega) (by omega) (hall 0 0 (by omega) (by omega))
  obtain ⟨d1, d2, d3, d4⟩ := hcont (img.width - 1) (img.height - 1) (by omega) (by omega)
    (hall (img.width - 1) (img.height - 1) (by omega) (by omega))
  rcases r with ⟨rx, ry, rwv, rhv⟩
  simp only at c1 c2 c3 c4 d1 d2 d3 d4 hi1 hi2 hi3 hi4
  have hrx : rx = 0 := by omega
  have hry : ry = 0 := by omega
  have hrw : rwv = img.width := by omega
  have hrh : rhv = img.height := by omega
  rw [hr, hrx, hry, hrw, hrh]

/-- C4: when no in-bounds pixel has alpha above the threshold the cropper
returns null and the fallback rectangle of line 109 is the full frame;
conversely one qualifying pixel forces a rectangle. -/
theorem C4_empty_subject_fallback (img : ImageData) (thr : Nat) :
    ((∀ x y, x < img.width → y < img.height → (img.pix x y).a ≤ thr) →
      getOpaqueBounds img thr = none) ∧
    ((∀ x y, x < img.width → y < img.height → (img.pix x y).a ≤ 16) →
      cropBoundsOf img = ⟨0, 0, img.width, img.height⟩) ∧
    (∀ x y, x < img.width → y < img.height → thr < (img.pix x y).a →
      ∃ r, getOpaqueBounds img thr = some r) := by
  refine ⟨?_, ?_, ?_⟩
  · intro hall
    exact getOpaqueBounds_none img thr (fun x y hx hy => by
      have := hall x y hx hy; omega)
  · intro hall
    unfold cropBoundsOf
    rw [getOpaqueBounds_none img 16 (fun x y hx hy => by
      have := hall x y hx hy; omega)]
    rfl
  · exact fun x y hx hy ha => getOpaqueBounds_isSome img thr x y hx hy ha

/-- Witness for C4 on a fully transparent 2 by 2 buffer and on a buffer
with one qualifying pixel. -/
theorem C4_empty_subject_fallback_witness :
    ((∀ x y, x < 2 → y < 2 →
      ((⟨2, 2, fun _ _ => ⟨0, 0, 0, 0⟩⟩ : ImageData).pix x y).a ≤ 16) ∧
      getOpaqueBounds ⟨2, 2, fun _ _ => ⟨0, 0, 0, 0⟩⟩ 16 = none ∧
      cropBoundsOf ⟨2, 2, fun _ _ => ⟨0, 0, 0, 0⟩⟩ = ⟨0, 0, 2, 2⟩) ∧
    ∃ r, getOpaqueBounds ⟨2, 2, fun x y =>
      if x = 1 ∧ y = 0 then ⟨9, 9, 9, 200⟩ else ⟨0, 0, 0, 0⟩⟩ 16 = some r := by
  refine ⟨⟨fun x y hx hy => (by decide : (0 : Nat) ≤ 16), ?_, ?_⟩, ?_⟩
  · exact (C4_empty_subject_fallback ⟨2, 2, fun _ _ => ⟨0, 0, 0, 0⟩⟩ 16).1
      (fun x y hx hy => (by decide : (0 : Nat) ≤ 16))
  · exact (C4_empty_subject_fallback ⟨2, 2, fun _ _ => ⟨0, 0, 0, 0⟩⟩ 16).2.1
      (fun x y hx hy => (by decide : (0 : Nat) ≤ 16))
  · exact (C4_empty_subject_fallback ⟨2, 2, fun x y =>
      if x = 1 ∧ y = 0 then ⟨9, 9, 9, 200⟩ else ⟨0, 0, 0, 0⟩⟩ 16).2.2 1 0
      (by decide) (by decide) (by decide)

/-- C9: every rectangle the cropper returns satisfies the Rect invariant
(x, y are Nat hence nonnegative; x + w bounded by the width, y + h by the
height, both sides at least 1) and is the inclusive bounding box of the
qualifying pixels: the extremes are attained (so w = maxX - minX + 1 and
h = maxY - minY + 1) and every qualifying pixel lies inside. -/
theorem C9_crop_rect_invariant (img : ImageData) (thr : Nat) (r : Rect)
    (h : getOpaqueBounds img thr = some r) :
    (r.x + r.w ≤ img.width ∧ r.y + r.h ≤ img.height ∧ 1 ≤ r.w ∧ 1 ≤ r.h) ∧
    (∀ x y, x < img.width → y < img.height → thr < (img.pix x y).a →
      r.x ≤ x ∧ x < r.x + r.w ∧ r.y ≤ y ∧ y < r.y + r.h) ∧
    (∃ x y, (x < img.width ∧ y < img.height ∧ thr < (img.pix x y).a) ∧ x = r.x) ∧
    (∃ x y, (x < img.width ∧ y < img.height ∧ thr < (img.pix x y).a) ∧
      x = r.x + (r.w - 1)) ∧
    (∃ x y, (x < img.width ∧ y < img.height ∧ thr < (img.pix x y).a) ∧ y = r.y) ∧
    (∃ x y, (x < img.width ∧ y < img.height ∧ thr < (img.pix x y).a) ∧
      y = r.y + (r.h - 1)) :=
  getOpaqueBounds_some_spec img thr r h

/-- Witness for C9 on a 2 by 2 buffer whose only qualifying pixel is (1,0). -/
theorem C9_crop_rect_invariant_witness :
    (getOpaqueBounds ⟨2, 2, fun x y =>
      if x = 1 ∧ y = 0 then ⟨9, 9, 9, 200⟩ else ⟨0, 0, 0, 0⟩⟩ 16 = some ⟨1, 0, 1, 1⟩) ∧
    ((1 : Nat) + 1 ≤ 2 ∧ (0 : Nat) + 1 ≤ 2 ∧ (1 : Nat) ≤ 1 ∧ (1 : Nat) ≤ 1) :=
  ⟨by decide,
    (C9_crop_rect_invariant ⟨2, 2, fun x y =>
      if x = 1 ∧ y = 0 then ⟨9, 9, 9, 200⟩ else ⟨0, 0, 0, 0⟩⟩ 16 ⟨1, 0, 1, 1⟩
      (by decide)).1⟩

/-! ### Downsampler claim -/

/-- C6: the sprite grid dimensions equal max(8, floor(dim / blockSize)) on
each axis whenever blockSize is at least 1 (the source guards the divisor
with max(1, blockSize)), and each axis is at least 8 for every blockSize,
including blockSize at least the input dimension. -/
theorem C6_downsampler_dims (cropW cropH blockSize : Nat) :
    8 ≤ (smallDims cropW cropH blockSize).1 ∧
    8 ≤ (smallDims cropW cropH blockSize).2 ∧
    (1 ≤ blockSize →
      smallDims cropW cropH blockSize = (max 8 (cropW / blockSize), max 8 (cropH / blockSize))) := by
  refine ⟨le_max_left _ _, le_max_left _ _, ?_⟩
  intro hbs
  unfold smallDims
  rw [max_eq_right hbs]

/-- Witness for C6 with blockSize larger than both dimensions. -/
theorem C6_downsampler_dims_witness :
    (1 ≤ 100) ∧ 8 ≤ (smallDims 5 3 100).1 ∧ 8 ≤ (smallDims 5 3 100).2 ∧
    smallDims 5 3 100 = (max 8 (5 / 100), max 8 (3 / 100)) :=
  ⟨by decide, (C6_downsampler_dims 5 3 100).1, (C6_downsampler_dims 5 3 100).2.1,
    (C6_downsampler_dims 5 3 100).2.2 (by decide)⟩

/-! ### Normalizer claim -/

lemma roundDim_le (w cL L : Nat) (hw : w ≤ cL) (hcL : L < cL) :
    (⌊(w : ℚ) * ((L : ℚ) / (cL : ℚ)) + 1 / 2⌋).toNat ≤ L := by
  have hc0 : (0 : ℚ) < (cL : ℚ) := by
    have : 0 < cL := by omega
    exact_mod_cast this
  have hq : (w : ℚ) * ((L : ℚ) / (cL : ℚ)) ≤ (L : ℚ) := by
    have h1 : (w : ℚ) ≤ (cL : ℚ) := by exact_mod_cast hw
    have h2 : 0 ≤ (L : ℚ) / (cL : ℚ) := by positivity
    calc (w : ℚ) * ((L : ℚ) / (cL : ℚ))
        ≤ (cL : ℚ) * ((L : ℚ) / (cL : ℚ)) := mul_le_mul_of_nonneg_right h1 h2
      _ = (L : ℚ) := by field_simp
  have hfl : ⌊(w : ℚ) * ((L : ℚ) / (cL : ℚ)) + 1 / 2⌋ ≤ (L : Int) := by
    have hflq : ((⌊(w : ℚ) * ((L : ℚ) / (cL : ℚ)) + 1 / 2⌋ : Int) : ℚ) ≤
        (w : ℚ) * ((L : ℚ) / (cL : ℚ)) + 1 / 2 := Int.floor_le _
    have : ((⌊(w : ℚ) * ((L : ℚ) / (cL : ℚ)) + 1 / 2⌋ : Int) : ℚ) < ((L : Int) : ℚ) + 1 := by
      push_cast
      linarith
    have hlt : ⌊(w : ℚ) * ((L : ℚ) / (cL : ℚ)) + 1 / 2⌋ < (L : Int) + 1 := by
      exact_mod_cast this
    omega
  exact Int.toNat_le.mpr hfl

/-- C7 (amended): for every limit of at least 1 the normalizer never
produces an output whose longest side exceeds the limit, and whenever
max(width, height) is within the limit it returns the input blob itself
unchanged (the byte-identical no-op branch of line 212). -/
theorem C7_normalizer_bounded (w h longestSide : Nat) :
    (max w h ≤ longestSide → normalizeDims w h longestSide = .unchanged) ∧
    (1 ≤ longestSide → normalizedLongest w h longestSide ≤ longestSide) := by
  constructor
  · intro hle
    unfold normalizeDims
    rw [if_pos hle]
  · intro hL
    unfold normalizedLongest normalizeDims
    by_cases hle : max w h ≤ longestSide
    · rw [if_pos hle]
      exact hle
    · rw [if_neg hle]
      push_neg at hle
      have hw : (⌊(w : ℚ) * ((longestSide : ℚ) / ((max w h : Nat) : ℚ)) + 1 / 2⌋).toNat ≤
          longestSide := roundDim_le w (max w h) longestSide (le_max_left _ _) hle
      have hh : (⌊(h : ℚ) * ((longestSide : ℚ) / ((max w h : Nat) : ℚ)) + 1 / 2⌋).toNat ≤
          longestSide := roundDim_le h (max w h) longestSide (le_max_right _ _) hle
      show max (max 1 _) (max 1 _) ≤ longestSide
      omega

/-- Witness for C7 (amended): a 1000 by 500 input at limit 512 is resized
within the limit; a 30 by 20 input at limit 512 is returned unchanged. -/
theorem C7_normalizer_bounded_witness :
    ((1 : Nat) ≤ 512) ∧ normalizedLongest 1000 500 512 ≤ 512 ∧
    (max 30 20 ≤ 512) ∧ normalizeDims 30 20 512 = .unchanged :=
  ⟨by decide, (C7_normalizer_bounded 1000 500 512).2 (by decide),
    by decide, (C7_normalizer_bounded 30 20 512).1 (by decide)⟩

/-- C7 as stated is false at limit 0: the target dimensions are clamped to
a minimum of 1 (lines 215-216), so a 2 by 2 input at limit 0 resizes to
1 by 1, whose longest side 1 exceeds the limit 0. -/
theorem C7_normalizer_counterexample :
    normalizeDims 2 2 0 = .resized 1 1 ∧ normalizedLongest 2 2 0 = 1 ∧
    ¬ normalizedLongest 2 2 0 ≤ 0 := by
  have h1 : normalizeDims 2 2 0 = .resized 1 1 := by
    norm_num [normalizeDims]
  have h2 : normalizedLongest 2 2 0 = 1 := by
    rw [normalizedLongest, h1]
    rfl
  exact ⟨h1, h2, by omega⟩

/-! ### End-to-end scenario -/

lemma solidRed_bounds : getOpaqueBounds solidRed64 16 = some ⟨0, 0, 64, 64⟩ :=
  getOpaqueBounds_full solidRed64 16 (by decide) (by decide)
    (fun x y hx hy => (by decide : (16 : Nat) < 255))

lemma cropBoundsOf_solidRed : cropBoundsOf solidRed64 = ⟨0, 0, 64, 64⟩ := by
  unfold cropBoundsOf
  rw [solidRed_bounds]
  rfl

/-- The 8 by 8 sprite buffer of the end-to-end scenario. -/
def smallRedImg : ImageData :=
  nnScale (cropBuffer solidRed64 ⟨0, 0, 64, 64⟩) 64 64 8 8

/-- The quantized sprite buffer of the end-to-end scenario. -/
def quantRedImg : ImageData := quantizeImageToPalette smallRedImg (PALETTES .pico8) 0

lemma findNearest_red :
    findNearestInPalette ((255 : Nat) : ℚ) ((0 : Nat) : ℚ) ((0 : Nat) : ℚ)
      (PALETTES .pico8) = (255, 0, 77) := by
  norm_num [findNearestInPalette, nearAux, wdist, PALETTES]

lemma quantRedImg_pix : ∀ u v, quantRedImg.pix u v = ⟨255, 0, 77, 255⟩ := by
  intro u v
  show quantizePixel (PALETTES .pico8) (max 0 (min 1 0) * 32) u v ⟨255, 0, 0, 255⟩ = _
  rw [dither_amp_zero]
  simp only [quantizePixel]
  rw [if_neg (by norm_num), if_neg (lt_irrefl 0)]
  rw [findNearest_red]

lemma pixelate_red_eq :
    pixelateImage solidRed64 8 (PALETTES .pico8) 0 0 =
      compositeImage (createPixelOutline quantRedImg 0) quantRedImg 8 8 64 := by
  unfold pixelateImage
  rw [cropBoundsOf_solidRed]
  rfl

lemma compositeImage_red_geometry (outline sprite : ImageData) :
    compositeImage outline sprite 8 8 64 =
      drawOver (drawOver ⟨64, 64, fun _ _ => backgroundFill⟩ outline 8 8 13 13 38 38)
        sprite 8 8 13 13 38 38 := by
  unfold compositeImage
  simp only []
  have h1 : (max 1 (64 * 6 / 10) : Nat) = 38 := by decide
  rw [h1]
  have h2 : ⌊((8 : Nat) : ℚ) * (((38 : Nat) : ℚ) / ((max 8 8 : Nat) : ℚ))⌋ = (38 : Int) := by
    norm_num
  rw [h2]
  rfl

lemma outlineRed_pix : ∀ u v, (createPixelOutline quantRedImg 0).pix u v = ⟨0, 0, 0, 0⟩ :=
  fun _ _ => rfl

lemma pixelate_red_pix (x y : Nat) :
    (pixelateImage solidRed64 8 (PALETTES .pico8) 0 0).pix x y =
      if 13 ≤ x ∧ x < 51 ∧ 13 ≤ y ∧ y < 51 then ⟨255, 0, 77, 255⟩ else backgroundFill := by
  rw [pixelate_red_eq, compositeImage_red_geometry]
  by_cases hreg : 13 ≤ x ∧ x < 13 + 38 ∧ 13 ≤ y ∧ y < 13 + 38
  · show (if 13 ≤ x ∧ x < 13 + 38 ∧ 13 ≤ y ∧ y < 13 + 38 then
        if (quantRedImg.pix ((x - 13) * 8 / 38) ((y - 13) * 8 / 38)).a = 0 then _ else
          quantRedImg.pix ((x - 13) * 8 / 38) ((y - 13) * 8 / 38)
      else _) = _
    rw [if_pos hreg, quantRedImg_pix]
    rw [if_neg (by norm_num)]
    rw [if_pos (by omega)]
  · show (if 13 ≤ x ∧ x < 13 + 38 ∧ 13 ≤ y ∧ y < 13 + 38 then _ else
      (drawOver ⟨64, 64, fun _ _ => backgroundFill⟩ (createPixelOutline quantRedImg 0)
        8 8 13 13 38 38).pix x y) = _
    rw [if_neg hreg]
    show (if 13 ≤ x ∧ x < 13 + 38 ∧ 13 ≤ y ∧ y < 13 + 38 then
        if ((createPixelOutline quantRedImg 0).pix ((x - 13) * 8 / 38) ((y - 13) * 8 / 38)).a = 0
        then backgroundFill else _
      else backgroundFill) = _
    rw [if_neg hreg]
    rw [if_neg (by omega)]

/-- C5 (amended): the end-to-end solid red scenario with palette pico8,
blockSize 8, no dithering, no outline: the sprite grid is 8 by 8, every
sprite pixel quantizes to pico8 entry (255, 0, 77), the final canvas is the
64 pixel square, and the background fill covers everything outside the
centered sprite region of side max(1, floor(64 * 0.6)) = 38 — 60 percent
coverage (the source constant at line 160), not the 70 percent the claim
states — i.e. the region [13, 51) x [13, 51), which is entirely
(255, 0, 77, 255). -/
theorem C5_end_to_end_amended :
    smallDims 64 64 8 = (8, 8) ∧
    (∀ u v, quantRedImg.pix u v = ⟨255, 0, 77, 255⟩) ∧
    (pixelateImage solidRed64 8 (PALETTES .pico8) 0 0).width = 64 ∧
    (pixelateImage solidRed64 8 (PALETTES .pico8) 0 0).height = 64 ∧
    ∀ x y, (pixelateImage solidRed64 8 (PALETTES .pico8) 0 0).pix x y =
      if 13 ≤ x ∧ x < 51 ∧ 13 ≤ y ∧ y < 51 then ⟨255, 0, 77, 255⟩ else backgroundFill := by
  refine ⟨by decide, quantRedImg_pix, ?_, ?_, pixelate_red_pix⟩
  · rw [pixelate_red_eq, compositeImage_red_geometry]
    rfl
  · rw [pixelate_red_eq, compositeImage_red_geometry]
    rfl

/-- C5 as stated is false: with the claimed 70 percent coverage the sprite
region of the 64 pixel square would be [10, 54) squared (floor(64 * 0.7) =
44 and offset floor((64 - 44) / 2) = 10), yet output pixel (10, 10) holds
the background fill (237, 141, 38, 255), not the sprite color
(255, 0, 77, 255): the code uses coverage 0.6 (line 160). -/
theorem C5_end_to_end_counterexample :
    ((10 : Nat) ≤ 10 ∧ (10 : Nat) < 54) ∧
    (pixelateImage solidRed64 8 (PALETTES .pico8) 0 0).pix 10 10 = backgroundFill ∧
    backgroundFill ≠ (⟨255, 0, 77, 255⟩ : RGBA) := by
  refine ⟨⟨le_refl _, by omega⟩, ?_, by decide⟩
  rw [pixelate_red_pix 10 10]
  norm_num
